import Mathlib

/-!
Shallow embedding of `src/script.py` (lead-list suspect classifier).

Modelling conventions:
* A CSV cell as pandas loads it is `PyVal`: a string, or the missing value
  `NaN` (which also stands for any non-string cell, since `extract_domain`
  only distinguishes strings from non-strings).
* Python `str(x)` / `.astype(str)` is `pyStr` (`str(NaN) = "nan"`).
* `str.strip` / `str.lower` / `str <` are re-implemented structurally on
  `List Char` (`pyStrip`, `pyLower`, `pyLt`) so that every definition is
  kernel-computable; they agree with Python's semantics on the ASCII data
  the program manipulates.
* Floats are modelled exactly by rationals: the share `count/total` is the
  rational `(count : ℚ) / total`, and the comparison
  `dominant_share >= DOMINANT_MIN_SHARE` (= 0.6) is embedded as the
  cross-multiplied integer test `3 * total ≤ 5 * count`, which is equivalent
  for `total > 0` (lemma `share_ge_iff` below).
* `pandas.groupby` sorts the distinct group keys ascending and drops rows
  whose key contains NaN; `sort_values` on several columns is a stable
  lexicographic sort; `drop_duplicates` keeps the first row per key;
  a left `merge` on a unique key is a lookup.  The stable sort is embedded
  with Mathlib's `List.insertionSort`, which is stable.
-/

namespace Inovation

/-- Value of a CSV cell: a proper string, or NaN (missing / non-string). -/
inductive PyVal where
  | str (s : String)
  | nan
  deriving DecidableEq

/-- Python `str(x)` as applied by `.astype(str)`: `str(NaN)` is `"nan"`. -/
def pyStr : PyVal → String
  | .str s => s
  | .nan => "nan"

/-- Strip whitespace from both ends of a character list (Python `str.strip`). -/
def stripList (l : List Char) : List Char :=
  ((l.dropWhile Char.isWhitespace).reverse.dropWhile Char.isWhitespace).reverse

/-- Python `str.strip()`. -/
def pyStrip (s : String) : String := String.mk (stripList s.data)

/-- Python `str.lower()` (ASCII case folding, which covers the data used here). -/
def pyLower (s : String) : String := String.mk (s.data.map Char.toLower)

/-- Lexicographic strict order on character lists: Python `str <` on code
points, the order pandas uses to sort string group keys. -/
def strLtList : List Char → List Char → Bool
  | [], [] => false
  | [], _ :: _ => true
  | _ :: _, [] => false
  | a :: as, b :: bs => if a < b then true else if b < a then false else strLtList as bs

/-- Python `s < t` on strings. -/
def pyLt (s t : String) : Bool := strLtList s.data t.data

/-- Python `s <= t` on strings. -/
def pyLe (s t : String) : Bool := pyLt s t || decide (s = t)

/-- Python `email.split(sep)` (single-character separator), accumulator form. -/
def pySplitAux (sep : Char) : List Char → List Char → List (List Char)
  | [], acc => [acc.reverse]
  | c :: cs, acc =>
      if c = sep then acc.reverse :: pySplitAux sep cs []
      else pySplitAux sep cs (c :: acc)

/-- Python `email.split(sep)`. -/
def pySplit (sep : Char) (l : List Char) : List (List Char) := pySplitAux sep l []

/-- The suffix after the last occurrence of `sep` (specification-side notion
used to characterise `split(sep)[-1]`). -/
def afterLast (sep : Char) (l : List Char) : List Char :=
  (l.reverse.takeWhile (fun c => c != sep)).reverse

/-- `extract_domain` (script.py lines 29-32): None unless the value is a
string containing `'@'`; otherwise the part after the last `'@'`, stripped
and lowercased. -/
def extract_domain : PyVal → Option String
  | .str s =>
      if '@' ∈ s.data then
        some (pyLower (pyStrip (String.mk ((pySplit '@' s.data).getLastD []))))
      else none
  | .nan => none

/-- One contact row: the two columns the classifier reads. -/
structure RawRecord where
  email : PyVal
  companyName : PyVal
  deriving DecidableEq

/-- Derived column `company_clean = df["Company Name"].astype(str).str.strip()`. -/
def company_clean (r : RawRecord) : String := pyStrip (pyStr r.companyName)

/-- Derived column `company_norm = company_clean.str.lower()`. -/
def company_norm (r : RawRecord) : String := pyLower (company_clean r)

/-- Derived column `domain = df["Email"].apply(extract_domain)`. -/
def domainOf (r : RawRecord) : Option String := extract_domain r.email

/-- `company_counts = df["company_clean"].value_counts()`, read with
`.get(c, 0)`. -/
def company_counts (t : List RawRecord) (c : String) : Nat :=
  (t.filter (fun r => company_clean r = c)).length

/-- Row of a grouped-count table: (first key, second key, count). -/
abbrev GRow := String × String × Nat

/-- Ascending order on group-key pairs (how `groupby` sorts its keys). -/
def keyLEb (a b : String × String) : Bool :=
  pyLt a.1 b.1 || (decide (a.1 = b.1) && pyLe a.2 b.2)

/-- Propositional form of `keyLEb`, for `List.insertionSort`. -/
def keyLE (a b : String × String) : Prop := keyLEb a b = true

instance : DecidableRel keyLE := fun _ _ => inferInstanceAs (Decidable (_ = true))

/-- Strict ascending order on group-key pairs. -/
def keyLT (a b : String × String) : Prop := keyLEb a b = true ∧ a ≠ b

/-- Sort order of `sort_values(["key", "count"], ascending=[True, False])`:
first key ascending, count descending. -/
def rowLEb (a b : GRow) : Bool :=
  pyLt a.1 b.1 || (decide (a.1 = b.1) && decide (b.2.2 ≤ a.2.2))

/-- Propositional form of `rowLEb`, for `List.insertionSort`. -/
def rowLE (a b : GRow) : Prop := rowLEb a b = true

instance : DecidableRel rowLE := fun _ _ => inferInstanceAs (Decidable (_ = true))

/-- Distinct keys in first-occurrence order. -/
def keysFirst (seen : List (String × String)) :
    List (String × String) → List (String × String)
  | [] => []
  | k :: ks => if k ∈ seen then keysFirst seen ks else k :: keysFirst (k :: seen) ks

/-- The distinct group keys, ascending (`groupby` emits its groups sorted). -/
def groupKeysOf (pairs : List (String × String)) : List (String × String) :=
  List.insertionSort keyLE (keysFirst [] pairs)

/-- `groupby([k1, k2]).size()`: one row per distinct key pair, with its
occurrence count, keys ascending. -/
def groupRows (pairs : List (String × String)) : List GRow :=
  (groupKeysOf pairs).map (fun k => (k.1, k.2, (pairs.filter (fun p => p = k)).length))

/-- `drop_duplicates(firstKey)`: keep the first row of each first-key value. -/
def dropDupFst (seen : List String) : List GRow → List GRow
  | [] => []
  | x :: xs =>
      if x.1 ∈ seen then dropDupFst seen xs
      else x :: dropDupFst (x.1 :: seen) xs

/-- `sort_values([key, "count"], ascending=[True, False])` (stable) followed by
`drop_duplicates(key)`: the selected row per first-key value. -/
def selectTop (rows : List GRow) : List GRow :=
  dropDupFst [] (List.insertionSort rowLE rows)

/-- Left-merge lookup of the selected (second key, count) for a first-key. -/
def topFor (rows : List GRow) (k : String) : Option (String × Nat) :=
  ((selectTop rows).find? (fun r => decide (r.1 = k))).map (fun r => (r.2.1, r.2.2))

/-- The (domain, raw `Company Name`) pairs that `find_dominant_company_per_domain`
groups: `groupby` drops rows whose `domain` is NaN or whose raw company cell
is NaN. -/
def domainNamePairs (t : List RawRecord) : List (String × String) :=
  t.filterMap (fun r =>
    match domainOf r, r.companyName with
    | some d, .str c => some (d, c)
    | _, _ => none)

/-- The `stats` table of `find_dominant_company_per_domain` (script.py 35-39). -/
def dominant_stats (t : List RawRecord) : List GRow :=
  groupRows (domainNamePairs t)

/-- `total_per_domain` (script.py line 41): sum of group counts per domain. -/
def total_domain (t : List RawRecord) (d : String) : Nat :=
  (((dominant_stats t).filter (fun s => s.1 = d)).map (fun s => s.2.2)).sum

/-- The `dominant` table (script.py 45-52), integer data: per domain the
selected `(dominant_company, count)`. -/
def dominantNat (t : List RawRecord) (d : String) : Option (String × Nat) :=
  topFor (dominant_stats t) d

/-- `DominantAssignment` per domain: `(dominant_company, dominant_share)`,
with `share = count / total_domain` (script.py line 43). -/
def dominantMap (t : List RawRecord) (d : String) : Option (String × ℚ) :=
  (dominantNat t d).map (fun p => (p.1, (p.2 : ℚ) / (total_domain t d : ℚ)))

/-- The `share` column restricted to one domain. -/
def domainShares (t : List RawRecord) (d : String) : List ℚ :=
  ((dominant_stats t).filter (fun s => s.1 = d)).map
    (fun s => (s.2.2 : ℚ) / (total_domain t d : ℚ))

/-- The (company_norm, company_clean) pairs grouped by
`find_canonical_company_by_name` (script.py 56-65); `astype(str)` means no
row is dropped. -/
def normCleanPairs (t : List RawRecord) : List (String × String) :=
  t.map (fun r => (company_norm r, company_clean r))

/-- The `name_stats` table of `find_canonical_company_by_name`. -/
def canonical_stats (t : List RawRecord) : List GRow :=
  groupRows (normCleanPairs t)

/-- `CanonicalAssignment` per normalized name (script.py 67-73). -/
def canonicalMap (t : List RawRecord) (n : String) : Option String :=
  (topFor (canonical_stats t) n).map (fun p => p.1)

/-- `DOMINANT_MIN_SHARE = 0.6` (script.py line 5). -/
def DOMINANT_MIN_SHARE : ℚ := 3 / 5

/-- Python `f"{n/T:.0%}"`: the share as a whole percentage (rounded to
nearest, halves up). -/
def fmtPct (n T : Nat) : String := toString ((200 * n + T) / (2 * T)) ++ "%"

/-- Reason string of heuristic 1 (script.py 121-124). -/
def reason1 (d dc : String) (n T : Nat) : String :=
  "Empresa diferente da dominante para o dom\xednio \x27" ++ d ++
    "\x27 (dominante: \x27" ++ dc ++ "\x27, share=" ++ fmtPct n T ++ ")"

/-- Reason string of heuristic 2 (script.py line 130). -/
def reason2 : String := "Empresa n\xe3o est\xe1 na lista de empresas prospectadas"

/-- Reason string of heuristic 3 (script.py line 134). -/
def reason3 : String := "Empresa aparece apenas uma vez no arquivo"

/-- Reason string of heuristic 4 (script.py 139-142). -/
def reason4 (cc : String) : String :=
  "Nome da empresa difere da forma mais frequente no arquivo (\x27" ++ cc ++ "\x27)"

/-- Per-record classification outcome. -/
structure Classification where
  is_suspect : Bool
  reasons : List String
  suggested_company : Option String
  deriving DecidableEq

/-- Body of the per-row loop of `mark_suspects` (script.py 107-148).
`dominant` carries the merged `(dominant_company, count, total_domain)`; the
code's test `dominant_share >= DOMINANT_MIN_SHARE` on the float
`count / total` is the integer test `3 * total ≤ 5 * count`.  The accumulator
is `(reasons, suggest, is_suspect)`. -/
def classifyRow (prospects : List String) (counts : String → Nat)
    (company : String) (domain : Option String)
    (dominant : Option (String × Nat × Nat)) (canonical : Option String) :
    Classification :=
  let acc0 : List String × Option String × Bool := ([], none, false)
  let acc1 :=
    match domain, dominant with
    | some d, some (dc, n, T) =>
        if company ≠ dc ∧ 3 * T ≤ 5 * n then
          (acc0.1 ++ [reason1 d dc n T], some dc, true)
        else acc0
    | _, _ => acc0
  let acc2 :=
    if prospects ≠ [] ∧ company ∉ prospects then
      (acc1.1 ++ [reason2], acc1.2.1, true)
    else acc1
  let acc3 :=
    if counts company = 1 then (acc2.1 ++ [reason3], acc2.2.1, true) else acc2
  let acc4 :=
    match canonical with
    | some cc =>
        if company ≠ cc then
          (acc3.1 ++ [reason4 cc],
            (match acc3.2.1 with | none => some cc | some s => some s), true)
        else acc3
    | none => acc3
  { is_suspect := acc4.2.2, reasons := acc4.1, suggested_company := acc4.2.1 }

/-- Heuristic 1's contribution to `reasons`. -/
def head1 (company : String) (domain : Option String)
    (dominant : Option (String × Nat × Nat)) : List String :=
  match domain, dominant with
  | some d, some (dc, n, T) =>
      if company ≠ dc ∧ 3 * T ≤ 5 * n then [reason1 d dc n T] else []
  | _, _ => []

/-- Heuristic 1's suggestion. -/
def sug1 (company : String) (domain : Option String)
    (dominant : Option (String × Nat × Nat)) : Option String :=
  match domain, dominant with
  | some _, some (dc, n, T) =>
      if company ≠ dc ∧ 3 * T ≤ 5 * n then some dc else none
  | _, _ => none

/-- Heuristics 2 and 3's contribution to `reasons`. -/
def midReasons (prospects : List String) (counts : String → Nat)
    (company : String) : List String :=
  (if prospects ≠ [] ∧ company ∉ prospects then [reason2] else []) ++
    (if counts company = 1 then [reason3] else [])

/-- Heuristic 4's contribution to `reasons`. -/
def tail4 (company : String) (canonical : Option String) : List String :=
  match canonical with
  | some cc => if company ≠ cc then [reason4 cc] else []
  | none => []

/-- Heuristics 2-4's contribution to `reasons`. -/
def reasonsTail (prospects : List String) (counts : String → Nat)
    (company : String) (canonical : Option String) : List String :=
  midReasons prospects counts company ++ tail4 company canonical

/-- Heuristic 4's suggestion. -/
def suggestTail (company : String) (canonical : Option String) : Option String :=
  match canonical with
  | some cc => if company ≠ cc then some cc else none
  | none => none

/-- First-setter-wins combination of two optional suggestions. -/
def firstSome (a b : Option String) : Option String :=
  match a with
  | some s => some s
  | none => b

/-- Trigger of heuristic 1 as a boolean. -/
def trig1b (company : String) (domain : Option String)
    (dominant : Option (String × Nat × Nat)) : Bool :=
  match domain, dominant with
  | some _, some (dc, n, T) => decide (company ≠ dc ∧ 3 * T ≤ 5 * n)
  | _, _ => false

/-- Trigger of heuristic 4 as a boolean. -/
def trig4b (company : String) (canonical : Option String) : Bool :=
  match canonical with
  | some cc => decide (company ≠ cc)
  | none => false

/-- The merged dominant columns seen by a row: `(dominant_company, count,
total_domain)` when the row's domain is present and has an assignment
(a left merge on NaN keys matches nothing). -/
def dominantLookup (t : List RawRecord) (r : RawRecord) :
    Option (String × Nat × Nat) :=
  match domainOf r with
  | some d => (dominantNat t d).map (fun p => (p.1, p.2, total_domain t d))
  | none => none

/-- A row of the annotated table returned by `mark_suspects`. -/
structure MarkedRecord where
  email : PyVal
  companyName : PyVal
  domain : Option String
  company_clean : String
  company_norm : String
  dominant_company : Option String
  dominant_share : Option ℚ
  canonical_company : Option String
  is_suspect : Bool
  reasons : List String
  suspect_reasons : String
  suggested_company : Option String
  deriving DecidableEq

/-- One row of `mark_suspects` (script.py 77-154). -/
def markRow (t : List RawRecord) (prospects : List String) (r : RawRecord) :
    MarkedRecord :=
  let d := domainOf r
  let dom := dominantLookup t r
  let canon := canonicalMap t (company_norm r)
  let cl := classifyRow prospects (company_counts t) (company_clean r) d dom canon
  { email := r.email
    companyName := r.companyName
    domain := d
    company_clean := company_clean r
    company_norm := company_norm r
    dominant_company := dom.map (fun p => p.1)
    dominant_share := dom.map (fun p => (p.2.1 : ℚ) / (p.2.2 : ℚ))
    canonical_company := canon
    is_suspect := cl.is_suspect
    reasons := cl.reasons
    suspect_reasons := String.intercalate "; " cl.reasons
    suggested_company := cl.suggested_company }

/-- `mark_suspects`: classify every row against the whole-table aggregates. -/
def mark_suspects (t : List RawRecord) (prospects : List String) :
    List MarkedRecord :=
  t.map (markRow t prospects)

/-- Drop every output column added by the classifier, keeping the input ones. -/
def stripAnnotations (m : MarkedRecord) : RawRecord :=
  { email := m.email, companyName := m.companyName }

/-- An input CSV: its header and its rows (only the two columns the core
reads are modelled in the rows). -/
structure CsvTable where
  columns : List String
  rows : List RawRecord
  deriving DecidableEq

/-- A row of the `pac.csv` output: `Company Name` replaced by the suggestion
when one is present and non-empty (script.py 197-200). -/
def pacRow (m : MarkedRecord) : RawRecord :=
  { email := m.email
    companyName :=
      match m.suggested_company with
      | some s => if s ≠ "" then .str s else m.companyName
      | none => m.companyName }

/-- The three output tables written by `main`. -/
structure RunOutput where
  treated : List MarkedRecord
  suspects : List MarkedRecord
  pac : List RawRecord
  deriving DecidableEq

/-- `main` after the CSV has been read (script.py 166-211): the required-column
check, then classification, then the three outputs.  File I/O is abstracted
into the returned value; a raised `ValueError` is the `error` branch, which
carries no output. -/
def runMain (table : CsvTable) (prospects : List String) :
    Except String RunOutput :=
  if "Email" ∈ table.columns ∧ "Company Name" ∈ table.columns then
    let m := mark_suspects table.rows prospects
    .ok { treated := m
          suspects := m.filter (fun x => x.is_suspect)
          pac := m.map pacRow }
  else
    .error "Faltam colunas obrigat\xf3rias no CSV"

/-- Modelled from the spec's words for claim C2: the dominant resolver as the
claim describes it, grouping by `(domain, company_clean)` (the trimmed name)
instead of the raw `Company Name` column; `str` coercion means no row is
dropped. -/
def dominant_stats_clean (t : List RawRecord) : List GRow :=
  groupRows (t.filterMap (fun r =>
    match domainOf r with
    | some d => some (d, company_clean r)
    | none => none))

/-- Modelled from the spec's words for claim C2: the dominant company under
the trimmed grouping. -/
def dominantNatClean (t : List RawRecord) (d : String) : Option (String × Nat) :=
  topFor (dominant_stats_clean t) d

/-- Modelled from the spec's words for claim C10: the per-domain total under
the trimmed grouping, in which a NaN company row still counts. -/
def total_domain_clean (t : List RawRecord) (d : String) : Nat :=
  (((dominant_stats_clean t).filter (fun s => s.1 = d)).map (fun s => s.2.2)).sum

/-- Scan a list of (name, count) pairs keeping the first maximum. -/
def argmaxFirst (l : List (String × Nat)) : Option (String × Nat) :=
  l.foldl (fun acc x =>
    match acc with
    | none => some x
    | some y => if y.2 < x.2 then some x else some y) none

/-- Modelled from the spec's words for claim C5: among a domain's groups in
source encounter order, the first group with the largest count. -/
def dominantEncounter (t : List RawRecord) (d : String) : Option (String × Nat) :=
  argmaxFirst
    (((keysFirst [] (domainNamePairs t)).filter (fun k => k.1 = d)).map
      (fun k => (k.2, ((domainNamePairs t).filter (fun p => p = k)).length)))

/-- Scenario A of the spec (§8): domain acme.com, three records named
"Acme Inc" and one named "Acme". -/
def scenarioA : List RawRecord :=
  [⟨.str "a1@acme.com", .str "Acme Inc"⟩,
   ⟨.str "a2@acme.com", .str "Acme Inc"⟩,
   ⟨.str "a3@acme.com", .str "Acme Inc"⟩,
   ⟨.str "a4@acme.com", .str "Acme"⟩]

/-- A table whose only company name carries surrounding whitespace. -/
def tRawName : List RawRecord := [⟨.str "a@d.com", .str " Acme "⟩]

/-- A table with a count tie on one domain, encounter order "B" before "A". -/
def tTie : List RawRecord :=
  [⟨.str "x@d.com", .str "B"⟩, ⟨.str "y@d.com", .str "A"⟩]

/-- A table with a missing company name sharing a domain with a present one. -/
def tNaN : List RawRecord :=
  [⟨.str "a@d.com", .nan⟩, ⟨.str "b@d.com", .str "X"⟩]

/-- A table with two spellings of one normalized name (spec Scenario D shape). -/
def tCanon : List RawRecord :=
  [⟨.str "e1", .str "Globex Corp"⟩, ⟨.str "e2", .str "Globex Corp"⟩,
   ⟨.str "e3", .str "globex corp"⟩]

/-! ### Order facts about the Python string order -/

theorem strLtList_irrefl : ∀ l : List Char, strLtList l l = false
  | [] => rfl
  | a :: as => by simp [strLtList, strLtList_irrefl as]

theorem strLtList_trans : ∀ (a b c : List Char),
    strLtList a b = true → strLtList b c = true → strLtList a c = true
  | [], [], _, h1, _ => by simp [strLtList] at h1
  | [], _ :: _, [], _, h2 => by simp [strLtList] at h2
  | [], _ :: _, _ :: _, _, _ => rfl
  | _ :: _, [], _, h1, _ => by simp [strLtList] at h1
  | _ :: _, _ :: _, [], _, h2 => by simp [strLtList] at h2
  | x :: as, y :: bs, z :: cs, h1, h2 => by
      simp only [strLtList] at h1 h2 ⊢
      by_cases hxy : x < y
      · by_cases hyz : y < z
        · simp [lt_trans hxy hyz]
        · by_cases hzy : z < y
          · simp [hyz, hzy] at h2
          · have hyzeq : y = z := le_antisymm (not_lt.mp hzy) (not_lt.mp hyz)
            subst hyzeq
            simp [hxy]
      · by_cases hyx : y < x
        · simp [hxy, hyx] at h1
        · have hxyeq : x = y := le_antisymm (not_lt.mp hyx) (not_lt.mp hxy)
          subst hxyeq
          simp only [lt_irrefl, if_false, if_neg hxy] at h1
          by_cases hxz : x < z
          · simp [hxz]
          · by_cases hzx : z < x
            · simp [hxz, hzx] at h2
            · have hxzeq : x = z := le_antisymm (not_lt.mp hzx) (not_lt.mp hxz)
              subst hxzeq
              simp only [lt_irrefl, if_false, if_neg hxz] at h2 ⊢
              exact strLtList_trans as bs cs h1 h2

theorem strLtList_connex : ∀ (a b : List Char),
    strLtList a b = false → strLtList b a = false → a = b
  | [], [], _, _ => rfl
  | [], _ :: _, h1, _ => by simp [strLtList] at h1
  | _ :: _, [], _, h2 => by simp [strLtList] at h2
  | x :: as, y :: bs, h1, h2 => by
      simp only [strLtList] at h1 h2
      by_cases hxy : x < y
      · simp [hxy] at h1
      · by_cases hyx : y < x
        · simp [hyx] at h2
        · have hxyeq : x = y := le_antisymm (not_lt.mp hyx) (not_lt.mp hxy)
          subst hxyeq
          simp only [lt_irrefl, if_false, if_neg hxy] at h1 h2
          rw [strLtList_connex as bs h1 h2]

theorem strLtList_asymm {a b : List Char}
    (h1 : strLtList a b = true) (h2 : strLtList b a = true) : False := by
  have := strLtList_trans a b a h1 h2
  rw [strLtList_irrefl] at this
  exact Bool.false_ne_true this

theorem pyLt_irrefl (s : String) : pyLt s s = false := strLtList_irrefl s.data

theorem pyLt_trans {s t u : String} (h1 : pyLt s t = true) (h2 : pyLt t u = true) :
    pyLt s u = true := strLtList_trans s.data t.data u.data h1 h2

theorem pyLt_connex {s t : String} (h1 : pyLt s t = false) (h2 : pyLt t s = false) :
    s = t := by
  cases s with
  | mk ls =>
      cases t with
      | mk lt' => exact congrArg String.mk (strLtList_connex ls lt' h1 h2)

theorem pyLt_asymm {s t : String} (h1 : pyLt s t = true) (h2 : pyLt t s = true) :
    False := strLtList_asymm h1 h2

theorem pyLe_refl (s : String) : pyLe s s = true := by simp [pyLe]

theorem keyLE_iff {a b : String × String} :
    keyLE a b ↔ pyLt a.1 b.1 = true ∨ (a.1 = b.1 ∧ (pyLt a.2 b.2 = true ∨ a.2 = b.2)) := by
  simp [keyLE, keyLEb, pyLe, Bool.or_eq_true, Bool.and_eq_true, decide_eq_true_eq]

theorem rowLE_iff {a b : GRow} :
    rowLE a b ↔ pyLt a.1 b.1 = true ∨ (a.1 = b.1 ∧ b.2.2 ≤ a.2.2) := by
  simp [rowLE, rowLEb, Bool.or_eq_true, Bool.and_eq_true, decide_eq_true_eq]

instance : IsTotal (String × String) keyLE where
  total a b := by
    rw [keyLE_iff, keyLE_iff]
    by_cases h1 : pyLt a.1 b.1 = true
    · exact Or.inl (Or.inl h1)
    · by_cases h2 : pyLt b.1 a.1 = true
      · exact Or.inr (Or.inl h2)
      · have he : a.1 = b.1 :=
          pyLt_connex (Bool.not_eq_true _ ▸ h1) (Bool.not_eq_true _ ▸ h2)
        by_cases h3 : pyLt a.2 b.2 = true
        · exact Or.inl (Or.inr ⟨he, Or.inl h3⟩)
        · by_cases h4 : pyLt b.2 a.2 = true
          · exact Or.inr (Or.inr ⟨he.symm, Or.inl h4⟩)
          · exact Or.inl (Or.inr ⟨he, Or.inr
              (pyLt_connex (Bool.not_eq_true _ ▸ h3) (Bool.not_eq_true _ ▸ h4))⟩)

instance : IsTrans (String × String) keyLE where
  trans a b c hab hbc := by
    rw [keyLE_iff] at hab hbc ⊢
    rcases hab with h1 | ⟨e1, h1⟩
    · rcases hbc with h2 | ⟨e2, _⟩
      · exact Or.inl (pyLt_trans h1 h2)
      · exact Or.inl (e2 ▸ h1)
    · rcases hbc with h2 | ⟨e2, h2⟩
      · exact Or.inl (e1 ▸ h2)
      · refine Or.inr ⟨e1.trans e2, ?_⟩
        rcases h1 with h1 | h1
        · rcases h2 with h2 | h2
          · exact Or.inl (pyLt_trans h1 h2)
          · exact Or.inl (h2 ▸ h1)
        · rcases h2 with h2 | h2
          · exact Or.inl (h1 ▸ h2)
          · exact Or.inr (h1.trans h2)

instance : IsTotal GRow rowLE where
  total a b := by
    rw [rowLE_iff, rowLE_iff]
    by_cases h1 : pyLt a.1 b.1 = true
    · exact Or.inl (Or.inl h1)
    · by_cases h2 : pyLt b.1 a.1 = true
      · exact Or.inr (Or.inl h2)
      · have he : a.1 = b.1 :=
          pyLt_connex (Bool.not_eq_true _ ▸ h1) (Bool.not_eq_true _ ▸ h2)
        rcases Nat.le_total b.2.2 a.2.2 with h | h
        · exact Or.inl (Or.inr ⟨he, h⟩)
        · exact Or.inr (Or.inr ⟨he.symm, h⟩)

instance : IsTrans GRow rowLE where
  trans a b c hab hbc := by
    rw [rowLE_iff] at hab hbc ⊢
    rcases hab with h1 | ⟨e1, h1⟩
    · rcases hbc with h2 | ⟨e2, _⟩
      · exact Or.inl (pyLt_trans h1 h2)
      · exact Or.inl (e2 ▸ h1)
    · rcases hbc with h2 | ⟨e2, h2⟩
      · exact Or.inl (e1 ▸ h2)
      · exact Or.inr ⟨e1.trans e2, le_trans h2 h1⟩

/-! ### Generic facts about find?, sublists and the grouped pipeline -/

theorem find?_first_of_pairwise {α : Type} {R : α → α → Prop} :
    ∀ (l : List α) (p : α → Bool) (s : α), l.Pairwise R → l.find? p = some s →
      ∀ x ∈ l, p x = true → x = s ∨ R s x
  | [], _, _, _, hf => by simp at hf
  | a :: l, p, s, hp, hf => by
      intro x hx hpx
      rcases List.pairwise_cons.mp hp with ⟨ha, hl⟩
      by_cases hpa : p a = true
      · rw [List.find?_cons_of_pos _ hpa] at hf
        obtain rfl : a = s := by injection hf
        rcases List.mem_cons.mp hx with rfl | hx'
        · exact Or.inl rfl
        · exact Or.inr (ha x hx')
      · rw [List.find?_cons_of_neg _ hpa] at hf
        rcases List.mem_cons.mp hx with rfl | hx'
        · exact absurd hpx hpa
        · exact find?_first_of_pairwise l p s hl hf x hx' hpx

theorem pair_sublist_of_mem {α : Type} {x y : α} :
    ∀ {l : List α}, x ≠ y → x ∈ l → y ∈ l →
      ([x, y].Sublist l ∨ [y, x].Sublist l) := by
  intro l hne hx hy
  induction l with
  | nil => cases hx
  | cons a l ih =>
      rcases eq_or_ne a x with rfl | hax
      · have hy' : y ∈ l := by
          rcases List.mem_cons.mp hy with h | h
          · exact absurd h.symm hne
          · exact h
        exact Or.inl (List.Sublist.cons₂ _ (List.singleton_sublist.mpr hy'))
      · rcases eq_or_ne a y with rfl | hay
        · have hx' : x ∈ l := by
            rcases List.mem_cons.mp hx with h | h
            · exact absurd h hax.symm
            · exact h
          exact Or.inr (List.Sublist.cons₂ _ (List.singleton_sublist.mpr hx'))
        · have hx' : x ∈ l := by
            rcases List.mem_cons.mp hx with h | h
            · exact absurd h hax.symm
            · exact h
          have hy' : y ∈ l := by
            rcases List.mem_cons.mp hy with h | h
            · exact absurd h hay.symm
            · exact h
          rcases ih hx' hy' with h | h
          · exact Or.inl (h.cons a)
          · exact Or.inr (h.cons a)

theorem find?_not_before {α : Type} (p : α → Bool) :
    ∀ (l : List α) (s x : α), l.Nodup → l.find? p = some s → p x = true →
      [x, s].Sublist l → x = s
  | [], _, _, _, hf, _, _ => by simp at hf
  | a :: l, s, x, hnd, hf, hpx, hsub => by
      rcases List.nodup_cons.mp hnd with ⟨hna, hnd'⟩
      by_cases hpa : p a = true
      · rw [List.find?_cons_of_pos _ hpa] at hf
        obtain rfl : a = s := by injection hf
        cases hsub with
        | cons _ h => exact absurd (h.subset (by simp)) hna
        | cons₂ _ _ => rfl
      · rw [List.find?_cons_of_neg _ hpa] at hf
        cases hsub with
        | cons _ h => exact find?_not_before p l s x hnd' hf hpx h
        | cons₂ _ _ => exact absurd hpx hpa

theorem dropDupFst_find? :
    ∀ (l : List GRow) (seen : List String) (k : String), k ∉ seen →
      (dropDupFst seen l).find? (fun r => decide (r.1 = k)) =
        l.find? (fun r => decide (r.1 = k))
  | [], _, _, _ => rfl
  | x :: xs, seen, k, hk => by
      simp only [dropDupFst]
      by_cases hx : x.1 ∈ seen
      · rw [if_pos hx]
        have hxk : ¬ (x.1 = k) := fun h => hk (h ▸ hx)
        rw [List.find?_cons_of_neg _ (by simpa using hxk)]
        exact dropDupFst_find? xs seen k hk
      · rw [if_neg hx]
        by_cases hxk : x.1 = k
        · rw [List.find?_cons_of_pos _ (by simpa using hxk),
            List.find?_cons_of_pos _ (by simpa using hxk)]
        · rw [List.find?_cons_of_neg _ (by simpa using hxk),
            List.find?_cons_of_neg _ (by simpa using hxk)]
          refine dropDupFst_find? xs (x.1 :: seen) k ?_
          intro h
          rcases List.mem_cons.mp h with h | h
          · exact hxk h.symm
          · exact hk h

theorem mem_of_mem_keysFirst :
    ∀ (l : List (String × String)) (seen : List (String × String)) (x),
      x ∈ keysFirst seen l → x ∈ l
  | [], _, _, h => by simp [keysFirst] at h
  | k :: ks, seen, x, h => by
      simp only [keysFirst] at h
      by_cases hk : k ∈ seen
      · rw [if_pos hk] at h
        exact .tail _ (mem_of_mem_keysFirst ks seen x h)
      · rw [if_neg hk] at h
        rcases List.mem_cons.mp h with rfl | h'
        · exact .head _
        · exact .tail _ (mem_of_mem_keysFirst ks (k :: seen) x h')

theorem mem_keysFirst_of_mem :
    ∀ (l : List (String × String)) (seen : List (String × String)) (x),
      x ∈ l → x ∉ seen → x ∈ keysFirst seen l
  | [], _, _, h, _ => by cases h
  | k :: ks, seen, x, h, hns => by
      simp only [keysFirst]
      by_cases hk : k ∈ seen
      · rw [if_pos hk]
        rcases List.mem_cons.mp h with rfl | h'
        · exact absurd hk hns
        · exact mem_keysFirst_of_mem ks seen x h' hns
      · rw [if_neg hk]
        rcases List.mem_cons.mp h with rfl | h'
        · exact .head _
        · by_cases hxk : x = k
          · subst hxk
            exact .head _
          · refine .tail _ (mem_keysFirst_of_mem ks (k :: seen) x h' ?_)
            intro hmem
            rcases List.mem_cons.mp hmem with h'' | h''
            · exact hxk h''
            · exact hns h''

theorem keysFirst_not_mem_seen :
    ∀ (l : List (String × String)) (seen : List (String × String)) (x),
      x ∈ keysFirst seen l → x ∉ seen
  | [], _, _, h => by simp [keysFirst] at h
  | k :: ks, seen, x, h => by
      simp only [keysFirst] at h
      by_cases hk : k ∈ seen
      · rw [if_pos hk] at h
        exact keysFirst_not_mem_seen ks seen x h
      · rw [if_neg hk] at h
        rcases List.mem_cons.mp h with rfl | h'
        · exact hk
        · intro hx
          exact keysFirst_not_mem_seen ks (k :: seen) x h' (List.mem_cons_of_mem _ hx)

theorem keysFirst_nodup :
    ∀ (l : List (String × String)) (seen : List (String × String)),
      (keysFirst seen l).Nodup
  | [], _ => List.nodup_nil
  | k :: ks, seen => by
      simp only [keysFirst]
      by_cases hk : k ∈ seen
      · rw [if_pos hk]
        exact keysFirst_nodup ks seen
      · rw [if_neg hk]
        refine List.nodup_cons.mpr ⟨?_, keysFirst_nodup ks (k :: seen)⟩
        intro hmem
        exact keysFirst_not_mem_seen ks (k :: seen) k hmem (.head _)

theorem mem_groupKeysOf {pairs : List (String × String)} {k : String × String} :
    k ∈ groupKeysOf pairs ↔ k ∈ pairs := by
  unfold groupKeysOf
  rw [List.mem_insertionSort]
  constructor
  · exact fun h => mem_of_mem_keysFirst _ _ _ h
  · exact fun h => mem_keysFirst_of_mem _ _ _ h (by simp)

theorem groupKeysOf_nodup (pairs : List (String × String)) :
    (groupKeysOf pairs).Nodup :=
  (keysFirst_nodup pairs []).perm (List.perm_insertionSort keyLE _).symm

theorem groupKeysOf_pairwise (pairs : List (String × String)) :
    (groupKeysOf pairs).Pairwise keyLT := by
  have hs : (groupKeysOf pairs).Pairwise keyLE :=
    List.sorted_insertionSort keyLE (keysFirst [] pairs)
  have hn : (groupKeysOf pairs).Pairwise (fun a b => a ≠ b) := groupKeysOf_nodup pairs
  exact (hs.and hn).imp (fun h => ⟨h.1, h.2⟩)

theorem groupRows_pairwise (pairs : List (String × String)) :
    (groupRows pairs).Pairwise (fun x y => keyLT (x.1, x.2.1) (y.1, y.2.1)) := by
  unfold groupRows
  rw [List.pairwise_map]
  exact (groupKeysOf_pairwise pairs).imp (fun h => h)

theorem mem_groupRows {pairs : List (String × String)} {x : GRow}
    (h : x ∈ groupRows pairs) :
    (x.1, x.2.1) ∈ pairs ∧
      x.2.2 = (pairs.filter (fun p => p = (x.1, x.2.1))).length := by
  unfold groupRows at h
  rcases List.mem_map.mp h with ⟨k, hk, rfl⟩
  exact ⟨mem_groupKeysOf.mp hk, rfl⟩

theorem groupRows_count_pos {pairs : List (String × String)} {x : GRow}
    (h : x ∈ groupRows pairs) : 0 < x.2.2 := by
  rcases mem_groupRows h with ⟨hmem, hcount⟩
  rw [hcount, List.length_pos]
  intro hnil
  have : (x.1, x.2.1) ∈ pairs.filter (fun p => p = (x.1, x.2.1)) :=
    List.mem_filter.mpr ⟨hmem, by simp⟩
  rw [hnil] at this
  cases this

theorem topFor_isSome {rows : List GRow} {k : String}
    (h : ∃ x ∈ rows, x.1 = k) : (topFor rows k).isSome = true := by
  unfold topFor selectTop
  rw [dropDupFst_find? _ [] k (by simp)]
  rw [Option.isSome_map']
  rw [List.find?_isSome]
  obtain ⟨x, hx, hk⟩ := h
  exact ⟨x, (List.mem_insertionSort rowLE).mpr hx, by simp [hk]⟩

theorem topFor_spec {rows : List GRow}
    (hpw : rows.Pairwise (fun x y => keyLT (x.1, x.2.1) (y.1, y.2.1)))
    {k c : String} {n : Nat} (h : topFor rows k = some (c, n)) :
    (k, c, n) ∈ rows ∧ (∀ x ∈ rows, x.1 = k → x.2.2 ≤ n) ∧
      (∀ x ∈ rows, x.1 = k → x.2.2 = n → pyLe c x.2.1 = true) := by
  unfold topFor selectTop at h
  rw [dropDupFst_find? _ [] k (by simp)] at h
  rcases Option.map_eq_some'.mp h with ⟨s, hfind, hs⟩
  have hseq : s = (k, c, n) := by
    obtain ⟨a, b, m⟩ := s
    have hsk : a = k := by simpa using List.find?_some hfind
    simp only at hs
    injection hs with h1 h2
    simp [hsk, h1, h2]
  subst hseq
  have hsmem : (k, c, n) ∈ rows :=
    (List.mem_insertionSort rowLE).mp (List.mem_of_find?_eq_some hfind)
  have hsort : (List.insertionSort rowLE rows).Pairwise rowLE :=
    List.sorted_insertionSort rowLE rows
  have hnodup_rows : rows.Nodup := by
    refine List.Pairwise.imp ?_ hpw
    intro a b hab heq
    exact hab.2 (by rw [heq])
  have hnodup : (List.insertionSort rowLE rows).Nodup :=
    hnodup_rows.perm (List.perm_insertionSort rowLE rows).symm
  refine ⟨hsmem, ?_, ?_⟩
  · intro x hx hxk
    have hxs : x ∈ List.insertionSort rowLE rows :=
      (List.mem_insertionSort rowLE).mpr hx
    rcases find?_first_of_pairwise _ _ _ hsort hfind x hxs (by simp [hxk]) with rfl | hR
    · exact le_refl _
    · simp only [rowLE, rowLEb, Bool.or_eq_true, Bool.and_eq_true,
        decide_eq_true_eq] at hR
      rcases hR with h1 | ⟨-, h2⟩
      · rw [hxk] at h1
        rw [pyLt_irrefl] at h1
        cases h1
      · exact h2
  · intro x hx hxk hxn
    by_cases hlt : pyLt x.2.1 c = true
    · exfalso
      have hxne : x ≠ (k, c, n) := by
        intro heq
        rw [heq] at hlt
        rw [pyLt_irrefl] at hlt
        cases hlt
      rcases pair_sublist_of_mem hxne hx hsmem with hp | hp
      · have hxle : rowLE x (k, c, n) :=
          rowLE_iff.mpr (Or.inr ⟨by simp [hxk], by simp [hxn]⟩)
        have hpair : [x, (k, c, n)].Sublist (List.insertionSort rowLE rows) :=
          List.pair_sublist_insertionSort hxle hp
        exact hxne (find?_not_before _ _ _ _ hnodup hfind (by simp [hxk]) hpair)
      · have hpp := List.Pairwise.sublist hp hpw
        have hklt0 := List.pairwise_pair.mp hpp
        have hb : keyLEb (k, c) (x.1, x.2.1) = true := hklt0.1
        simp only [keyLE, keyLEb, pyLe, Bool.or_eq_true, Bool.and_eq_true,
          decide_eq_true_eq] at hb
        rcases hb with h1 | ⟨-, h2 | h2⟩
        · rw [hxk] at h1
          rw [pyLt_irrefl] at h1
          cases h1
        · exact pyLt_asymm h2 hlt
        · rw [← h2] at hlt
          rw [pyLt_irrefl] at hlt
          cases hlt
    · by_cases hgt : pyLt c x.2.1 = true
      · simp [pyLe, hgt]
      · have : c = x.2.1 :=
          pyLt_connex (Bool.not_eq_true _ ▸ hgt) (Bool.not_eq_true _ ▸ hlt)
        simp [pyLe, this]

theorem groupRows_key_mem {pairs : List (String × String)} {k : String × String}
    (h : k ∈ pairs) : ∃ x ∈ groupRows pairs, x.1 = k.1 := by
  refine ⟨(k.1, k.2, (pairs.filter (fun p => p = k)).length), ?_, rfl⟩
  unfold groupRows
  exact List.mem_map.mpr ⟨k, mem_groupKeysOf.mpr h, by simp⟩

/-! ### The classifier, re-expressed heuristic by heuristic -/

theorem classifyRow_eq (p : List String) (cnt : String → Nat) (c : String)
    (domain : Option String) (dom : Option (String × Nat × Nat))
    (canon : Option String) :
    classifyRow p cnt c domain dom canon =
      { is_suspect := trig1b c domain dom || decide (p ≠ [] ∧ c ∉ p) ||
          decide (cnt c = 1) || trig4b c canon
        reasons := head1 c domain dom ++ midReasons p cnt c ++ tail4 c canon
        suggested_company := firstSome (sug1 c domain dom) (suggestTail c canon) } := by
  rcases domain with _ | d <;> rcases dom with _ | ⟨dc, n, T⟩ <;>
    rcases canon with _ | cc <;>
      simp only [classifyRow, head1, sug1, midReasons, tail4, suggestTail,
        firstSome, trig1b, trig4b] <;>
      split_ifs <;> simp_all [Classification.mk.injEq]

theorem head1_ne_nil_iff {c : String} {domain : Option String}
    {dom : Option (String × Nat × Nat)} :
    head1 c domain dom ≠ [] ↔ trig1b c domain dom = true := by
  rcases domain with _ | d <;> rcases dom with _ | ⟨dc, n, T⟩ <;>
    simp only [head1, trig1b] <;>
    first
    | (split_ifs <;> simp_all)
    | simp_all

theorem tail4_ne_nil_iff {c : String} {canon : Option String} :
    tail4 c canon ≠ [] ↔ trig4b c canon = true := by
  rcases canon with _ | cc <;> simp only [tail4, trig4b] <;>
    first
    | (split_ifs <;> simp_all)
    | simp_all

theorem midReasons_ne_nil_iff {p : List String} {cnt : String → Nat} {c : String} :
    midReasons p cnt c ≠ [] ↔
      (decide (p ≠ [] ∧ c ∉ p) || decide (cnt c = 1)) = true := by
  by_cases h2 : p ≠ [] ∧ c ∉ p <;> by_cases h3 : cnt c = 1 <;>
    simp [midReasons, h2, h3]

/-! ### Numeric facts about counts and shares -/

theorem dominantNat_bounds {t : List RawRecord} {d dc : String} {n : Nat}
    (h : dominantNat t d = some (dc, n)) :
    (d, dc, n) ∈ dominant_stats t ∧ 1 ≤ n ∧ n ≤ total_domain t d := by
  have hs := topFor_spec (groupRows_pairwise _) h
  refine ⟨hs.1, groupRows_count_pos hs.1, ?_⟩
  unfold total_domain
  have hmem : (d, dc, n) ∈ (dominant_stats t).filter (fun s => s.1 = d) :=
    List.mem_filter.mpr ⟨hs.1, by simp⟩
  have hmm : n ∈ ((dominant_stats t).filter (fun s => s.1 = d)).map (fun s => s.2.2) :=
    List.mem_map.mpr ⟨(d, dc, n), hmem, rfl⟩
  exact List.single_le_sum (fun _ _ => Nat.zero_le _) _ hmm

theorem share_ge_iff {n T : Nat} (hT : 0 < T) :
    3 * T ≤ 5 * n ↔ DOMINANT_MIN_SHARE ≤ (n : ℚ) / (T : ℚ) := by
  have hT' : (0 : ℚ) < (T : ℚ) := by exact_mod_cast hT
  unfold DOMINANT_MIN_SHARE
  rw [div_le_div_iff₀ (by norm_num : (0 : ℚ) < 5) hT']
  rw [show (3 : ℚ) * (T : ℚ) = ((3 * T : ℕ) : ℚ) by push_cast; ring]
  rw [show ((n : ℚ)) * 5 = ((5 * n : ℕ) : ℚ) by push_cast; ring]
  exact Nat.cast_le.symm

theorem sum_map_div_natCast (l : List ℕ) (T : ℚ) :
    (l.map (fun n : ℕ => (n : ℚ) / T)).sum = ((l.sum : ℕ) : ℚ) / T := by
  induction l with
  | nil => simp
  | cons a l ih =>
      simp only [List.map_cons, List.sum_cons, ih]
      rw [Nat.cast_add, add_div]

theorem head1_eq_nil_iff {c : String} {domain : Option String}
    {dom : Option (String × Nat × Nat)} :
    head1 c domain dom = [] ↔ trig1b c domain dom = false := by
  rcases domain with _ | d <;> rcases dom with _ | ⟨dc, n, T⟩ <;>
    simp only [head1, trig1b] <;> (try split_ifs) <;> simp_all

theorem tail4_eq_nil_iff {c : String} {canon : Option String} :
    tail4 c canon = [] ↔ trig4b c canon = false := by
  rcases canon with _ | cc <;> simp only [tail4, trig4b] <;>
    (try split_ifs) <;> simp_all

theorem midReasons_eq_nil_iff {p : List String} {cnt : String → Nat} {c : String} :
    midReasons p cnt c = [] ↔ ¬(p ≠ [] ∧ c ∉ p) ∧ ¬(cnt c = 1) := by
  by_cases h2 : p ≠ [] ∧ c ∉ p <;> by_cases h3 : cnt c = 1 <;>
    simp [midReasons, h2, h3]

theorem classifyRow_suspect_iff (p : List String) (cnt : String → Nat) (c : String)
    (domain : Option String) (dom : Option (String × Nat × Nat))
    (canon : Option String) :
    (classifyRow p cnt c domain dom canon).is_suspect = true ↔
      (classifyRow p cnt c domain dom canon).reasons ≠ [] := by
  rw [classifyRow_eq]
  simp only [ne_eq, List.append_eq_nil, head1_eq_nil_iff, tail4_eq_nil_iff,
    midReasons_eq_nil_iff, Bool.or_eq_true, decide_eq_true_eq,
    ← Bool.not_eq_true]
  tauto

theorem firstSome_none (a : Option String) : firstSome a none = a := by
  cases a <;> rfl

theorem takeWhile_append_of_stop {p : Char → Bool} :
    ∀ (l₁ l₂ : List Char), (∃ x ∈ l₁, p x = false) →
      (l₁ ++ l₂).takeWhile p = l₁.takeWhile p
  | [], _, h => by
      rcases h with ⟨x, hx, _⟩
      cases hx
  | a :: l₁, l₂, h => by
      rcases h with ⟨x, hx, hpx⟩
      by_cases hpa : p a = true
      · have hx' : x ∈ l₁ := by
          rcases List.mem_cons.mp hx with rfl | h'
          · rw [hpa] at hpx
            cases hpx
          · exact h'
        rw [List.cons_append, List.takeWhile_cons_of_pos hpa,
          List.takeWhile_cons_of_pos hpa,
          takeWhile_append_of_stop l₁ l₂ ⟨x, hx', hpx⟩]
      · rw [List.cons_append,
          List.takeWhile_cons_of_neg hpa, List.takeWhile_cons_of_neg hpa]

theorem pySplitAux_getLastD (sep : Char) :
    ∀ (l acc db : List Char),
      (pySplitAux sep l acc).getLastD db =
        if sep ∈ l then afterLast sep l else acc.reverse ++ l
  | [], acc, db => by simp [pySplitAux]
  | c :: l, acc, db => by
      simp only [pySplitAux]
      by_cases hc : c = sep
      · rw [if_pos hc, List.getLastD_cons,
          pySplitAux_getLastD sep l [] acc.reverse]
        subst hc
        rw [if_pos (List.mem_cons_self c l)]
        by_cases hmem : c ∈ l
        · rw [if_pos hmem]
          unfold afterLast
          rw [List.reverse_cons,
            takeWhile_append_of_stop _ _ ⟨c, List.mem_reverse.mpr hmem, by simp⟩]
        · rw [if_neg hmem]
          unfold afterLast
          rw [List.reverse_cons, List.takeWhile_append_of_pos ?hall]
          case hall =>
            intro x hxr
            rw [bne_iff_ne]
            intro heq
            exact hmem (heq ▸ List.mem_reverse.mp hxr)
          simp
      · rw [if_neg hc, pySplitAux_getLastD sep l (c :: acc) db]
        have hmemiff : (sep ∈ c :: l) ↔ sep ∈ l := by
          rw [List.mem_cons]
          constructor
          · rintro (h | h)
            · exact absurd h.symm hc
            · exact h
          · exact Or.inr
        by_cases hmem : sep ∈ l
        · rw [if_pos hmem, if_pos (hmemiff.mpr hmem)]
          unfold afterLast
          rw [List.reverse_cons,
            takeWhile_append_of_stop _ _ ⟨sep, List.mem_reverse.mpr hmem, by simp⟩]
        · rw [if_neg hmem, if_neg (fun h => hmem (hmemiff.mp h)),
            List.reverse_cons, List.append_assoc]
          rfl

/-! ### The claims -/

/-- C3: for every record of a classified table, `is_suspect` is true exactly
when the record's `reasons` sequence is non-empty: each heuristic appends one
reason whenever it sets the flag, and nothing else sets the flag. -/
theorem suspect_iff_reasons_nonempty (t : List RawRecord) (p : List String)
    (m : MarkedRecord) (hm : m ∈ mark_suspects t p) :
    m.is_suspect = true ↔ m.reasons ≠ [] := by
  rcases List.mem_map.mp hm with ⟨r, _, rfl⟩
  simp only [markRow]
  exact classifyRow_suspect_iff _ _ _ _ _ _

/-- Witness for C3 at the "Acme" record of Scenario A. -/
theorem suspect_iff_reasons_nonempty_witness :
    (markRow scenarioA [] ⟨.str "a4@acme.com", .str "Acme"⟩ ∈
        mark_suspects scenarioA []) ∧
      ((markRow scenarioA [] ⟨.str "a4@acme.com", .str "Acme"⟩).is_suspect = true ↔
        (markRow scenarioA [] ⟨.str "a4@acme.com", .str "Acme"⟩).reasons ≠ []) := by
  have hm : markRow scenarioA [] ⟨.str "a4@acme.com", .str "Acme"⟩ ∈
      mark_suspects scenarioA [] :=
    List.mem_map.mpr ⟨⟨.str "a4@acme.com", .str "Acme"⟩, by decide, rfl⟩
  exact ⟨hm, suspect_iff_reasons_nonempty scenarioA [] _ hm⟩

/-- C6: for every domain that has a DominantAssignment, the dominant share is
in the half-open interval (0, 1], and the shares of the domain's company
groups sum to 1. -/
theorem dominant_share_in_unit_interval (t : List RawRecord) (d dc : String)
    (ds : ℚ) (h : dominantMap t d = some (dc, ds)) :
    (0 < ds ∧ ds ≤ 1) ∧ (domainShares t d).sum = 1 := by
  unfold dominantMap at h
  rcases Option.map_eq_some'.mp h with ⟨⟨c0, n0⟩, hnat, hpair⟩
  simp only at hpair
  injection hpair with hc hds
  subst hc
  obtain ⟨hmem, hn1, hnT⟩ := dominantNat_bounds hnat
  have hT : 0 < total_domain t d := lt_of_lt_of_le hn1 hnT
  have hT' : (0 : ℚ) < (total_domain t d : ℚ) := by exact_mod_cast hT
  constructor
  · constructor
    · rw [← hds]
      exact div_pos (by exact_mod_cast hn1) hT'
    · rw [← hds, div_le_one hT']
      exact_mod_cast hnT
  · unfold domainShares
    have hmm : ((dominant_stats t).filter (fun s => s.1 = d)).map
        (fun s => (s.2.2 : ℚ) / (total_domain t d : ℚ)) =
        (((dominant_stats t).filter (fun s => s.1 = d)).map (fun s => s.2.2)).map
          (fun n : ℕ => (n : ℚ) / (total_domain t d : ℚ)) := by
      rw [List.map_map]
      rfl
    rw [hmm, sum_map_div_natCast]
    have htot : (((dominant_stats t).filter (fun s => s.1 = d)).map
        (fun s => s.2.2)).sum = total_domain t d := rfl
    rw [htot, div_self (ne_of_gt hT')]

/-- Witness for C6 at Scenario A: share 3/4 for domain acme.com. -/
theorem dominant_share_in_unit_interval_witness :
    dominantMap scenarioA "acme.com" = some ("Acme Inc", 3 / 4) ∧
      ((0 < (3 / 4 : ℚ) ∧ (3 / 4 : ℚ) ≤ 1) ∧
        (domainShares scenarioA "acme.com").sum = 1) := by
  have h : dominantMap scenarioA "acme.com" = some ("Acme Inc", 3 / 4) := by
    have h1 : dominantNat scenarioA "acme.com" = some ("Acme Inc", 3) := by decide
    have h2 : total_domain scenarioA "acme.com" = 4 := by decide
    unfold dominantMap
    rw [h1, h2]
    norm_num
  exact ⟨h, dominant_share_in_unit_interval scenarioA "acme.com" "Acme Inc" (3 / 4) h⟩

/-- C7: the classifier is idempotent: stripping the added columns and
classifying again yields the same annotated table. -/
theorem classifier_idempotent (t : List RawRecord) (p : List String) :
    mark_suspects ((mark_suspects t p).map stripAnnotations) p =
      mark_suspects t p := by
  have hstrip : ∀ l : List RawRecord,
      (l.map (markRow t p)).map stripAnnotations = l := by
    intro l
    induction l with
    | nil => rfl
    | cons a l ih =>
        rw [List.map_cons, List.map_cons, ih]
        rfl
  show mark_suspects ((t.map (markRow t p)).map stripAnnotations) p =
    mark_suspects t p
  rw [hstrip t]

/-- C8: the domain extractor returns the substring after the last `'@'`,
trimmed and lowercased, for any string containing `'@'`, and "absent" for a
string without `'@'` or a non-string value; it is a total function (the code
raises no exception). -/
theorem extract_domain_correct :
    (∀ s : String, extract_domain (.str s) =
        if '@' ∈ s.data then
          some (pyLower (pyStrip (String.mk (afterLast '@' s.data))))
        else none) ∧
      extract_domain .nan = none := by
  refine ⟨?_, rfl⟩
  intro s
  simp only [extract_domain, pySplit]
  by_cases h : '@' ∈ s.data
  · rw [if_pos h, if_pos h, pySplitAux_getLastD '@' s.data [] [], if_pos h]
  · rw [if_neg h, if_neg h]

/-- C9: a run whose input table lacks the email column or the company-name
column fails with the missing-column error and yields no output, and a
successful run classifies every row (never a partial table). -/
theorem missing_column_aborts (table : CsvTable) (p : List String) :
    (("Email" ∉ table.columns ∨ "Company Name" ∉ table.columns) →
      runMain table p = .error "Faltam colunas obrigat\xf3rias no CSV" ∧
        ∀ out, runMain table p ≠ .ok out) ∧
      (∀ out, runMain table p = .ok out →
        out.treated = mark_suspects table.rows p ∧
          out.treated.length = table.rows.length) := by
  constructor
  · intro h
    have hcond : ¬("Email" ∈ table.columns ∧ "Company Name" ∈ table.columns) := by
      tauto
    constructor
    · unfold runMain
      rw [if_neg hcond]
    · intro out
      unfold runMain
      rw [if_neg hcond]
      exact fun hout => Except.noConfusion hout
  · intro out hout
    unfold runMain at hout
    by_cases hcond : "Email" ∈ table.columns ∧ "Company Name" ∈ table.columns
    · rw [if_pos hcond] at hout
      injection hout with h'
      rw [← h']
      exact ⟨rfl, by simp [mark_suspects]⟩
    · rw [if_neg hcond] at hout
      exact Except.noConfusion hout

/-- Witness for C9: a table with only an Email column aborts. -/
theorem missing_column_aborts_witness :
    ("Company Name" ∉ (CsvTable.mk ["Email"] []).columns) ∧
      runMain (CsvTable.mk ["Email"] []) [] =
        .error "Faltam colunas obrigat\xf3rias no CSV" := by
  have h : "Company Name" ∉ (CsvTable.mk ["Email"] []).columns := by decide
  exact ⟨h, ((missing_column_aborts (CsvTable.mk ["Email"] []) []).1 (Or.inr h)).1⟩

theorem domainNamePairs_filter_nan (t : List RawRecord) :
    domainNamePairs (t.filter (fun x => decide (x.companyName ≠ .nan))) =
      domainNamePairs t := by
  induction t with
  | nil => rfl
  | cons r t ih =>
      rcases hcn : r.companyName with s | _
      · rw [List.filter_cons_of_pos (by simp [hcn])]
        unfold domainNamePairs at ih ⊢
        rw [List.filterMap_cons, List.filterMap_cons, ih]
      · rw [List.filter_cons_of_neg (by simp [hcn])]
        unfold domainNamePairs at ih ⊢
        rw [List.filterMap_cons]
        rcases hdom : domainOf r with _ | d
        · rw [hcn]
          exact ih
        · rw [hcn]
          exact ih

theorem markRow_classification (t : List RawRecord) (p : List String)
    (r : RawRecord) :
    (markRow t p r).reasons =
      (classifyRow p (company_counts t) (company_clean r) (domainOf r)
        (dominantLookup t r) (canonicalMap t (company_norm r))).reasons ∧
    (markRow t p r).suggested_company =
      (classifyRow p (company_counts t) (company_clean r) (domainOf r)
        (dominantLookup t r) (canonicalMap t (company_norm r))).suggested_company ∧
    (markRow t p r).is_suspect =
      (classifyRow p (company_counts t) (company_clean r) (domainOf r)
        (dominantLookup t r) (canonicalMap t (company_norm r))).is_suspect :=
  ⟨rfl, rfl, rfl⟩

/-- C1: the domain-dominance heuristic applies only when the record's domain
is present and has a DominantAssignment; it triggers exactly when
`company_clean ≠ dominant_company` and the share is at least
`DOMINANT_MIN_SHARE` (0.6), in which case it prepends its reason and sets
the suggestion to the dominant company; with an absent domain it contributes
no reason and no suggestion.  In particular Scenario A: only the "Acme"
record is flagged by this heuristic, with suggestion "Acme Inc". -/
theorem domain_dominance_heuristic (t : List RawRecord) (p : List String)
    (r : RawRecord) :
    (∀ d dc n, domainOf r = some d → dominantNat t d = some (dc, n) →
      dominantMap t d = some (dc, (n : ℚ) / (total_domain t d : ℚ)) ∧
      ((company_clean r ≠ dc ∧
          DOMINANT_MIN_SHARE ≤ (n : ℚ) / (total_domain t d : ℚ)) →
        (markRow t p r).reasons =
          reason1 d dc n (total_domain t d) ::
            reasonsTail p (company_counts t) (company_clean r)
              (canonicalMap t (company_norm r)) ∧
        (markRow t p r).suggested_company = some dc) ∧
      (¬(company_clean r ≠ dc ∧
          DOMINANT_MIN_SHARE ≤ (n : ℚ) / (total_domain t d : ℚ)) →
        (markRow t p r).reasons =
          reasonsTail p (company_counts t) (company_clean r)
            (canonicalMap t (company_norm r)) ∧
        (markRow t p r).suggested_company =
          suggestTail (company_clean r) (canonicalMap t (company_norm r)))) ∧
    (domainOf r = none →
      (markRow t p r).reasons =
        reasonsTail p (company_counts t) (company_clean r)
          (canonicalMap t (company_norm r)) ∧
      (markRow t p r).suggested_company =
        suggestTail (company_clean r) (canonicalMap t (company_norm r))) ∧
    (dominantNat scenarioA "acme.com" = some ("Acme Inc", 3) ∧
      total_domain scenarioA "acme.com" = 4 ∧
      DOMINANT_MIN_SHARE ≤ (3 : ℚ) / 4 ∧
      (mark_suspects scenarioA []).map (fun m => m.suggested_company) =
        [none, none, none, some "Acme Inc"] ∧
      (mark_suspects scenarioA []).map
          (fun m => decide (reason1 "acme.com" "Acme Inc" 3 4 ∈ m.reasons)) =
        [false, false, false, true]) := by
  refine ⟨?_, ?_, ?_⟩
  · intro d dc n hd hnat
    obtain ⟨hmem, hn1, hnT⟩ := dominantNat_bounds hnat
    have hT : 0 < total_domain t d := lt_of_lt_of_le hn1 hnT
    have hlook : dominantLookup t r = some (dc, n, total_domain t d) := by
      unfold dominantLookup
      rw [hd]
      simp only [hnat, Option.map_some']
    refine ⟨?_, ?_, ?_⟩
    · unfold dominantMap
      rw [hnat]
      rfl
    · rintro ⟨hne, hshare⟩
      have htest : 3 * total_domain t d ≤ 5 * n := (share_ge_iff hT).mpr hshare
      constructor
      · rw [(markRow_classification t p r).1, hd, hlook]
        simp only [classifyRow_eq, head1]
        rw [if_pos ⟨hne, htest⟩, List.append_assoc, List.singleton_append]
        rfl
      · rw [(markRow_classification t p r).2.1, hd, hlook]
        simp only [classifyRow_eq, sug1]
        rw [if_pos ⟨hne, htest⟩]
        rfl
    · intro hneg
      have htest : ¬(company_clean r ≠ dc ∧ 3 * total_domain t d ≤ 5 * n) := by
        rintro ⟨h1, h2⟩
        exact hneg ⟨h1, (share_ge_iff hT).mp h2⟩
      constructor
      · rw [(markRow_classification t p r).1, hd, hlook]
        simp only [classifyRow_eq, head1]
        rw [if_neg htest, List.nil_append]
        rfl
      · rw [(markRow_classification t p r).2.1, hd, hlook]
        simp only [classifyRow_eq, sug1]
        rw [if_neg htest]
        rfl
  · intro hd
    have hlook : dominantLookup t r = none := by
      unfold dominantLookup
      rw [hd]
    constructor
    · rw [(markRow_classification t p r).1, hd, hlook]
      simp only [classifyRow_eq, head1]
      rw [List.nil_append]
      rfl
    · rw [(markRow_classification t p r).2.1, hd, hlook]
      simp only [classifyRow_eq, sug1]
      rfl
  · exact ⟨by decide, by decide, by norm_num [DOMINANT_MIN_SHARE], by decide,
      by decide⟩

/-- Witness for C1: the "Acme" record of Scenario A, with the dominant
assignment ("Acme Inc", count 3) over domain acme.com. -/
theorem domain_dominance_heuristic_witness :
    (domainOf (⟨.str "a4@acme.com", .str "Acme"⟩ : RawRecord) = some "acme.com" ∧
      dominantNat scenarioA "acme.com" = some ("Acme Inc", 3)) ∧
    dominantMap scenarioA "acme.com" =
      some ("Acme Inc", ((3 : ℕ) : ℚ) / ((total_domain scenarioA "acme.com") : ℚ)) := by
  have hd : domainOf (⟨.str "a4@acme.com", .str "Acme"⟩ : RawRecord) =
      some "acme.com" := by decide
  have hn : dominantNat scenarioA "acme.com" = some ("Acme Inc", 3) := by decide
  exact ⟨⟨hd, hn⟩,
    ((domain_dominance_heuristic scenarioA [] _).1 "acme.com" "Acme Inc" 3 hd hn).1⟩

/-- C4: the canonical-spelling heuristic, applicable when a
CanonicalAssignment exists for the record's `company_norm`, triggers exactly
when `company_clean ≠ canonical_company`, appending its reason last; the
overall suggestion is the first non-null among heuristic 1's and heuristic
4's suggestions in that order (heuristics 2 and 3 never suggest). -/
theorem canonical_spelling_heuristic (t : List RawRecord) (p : List String)
    (r : RawRecord) (cc : String)
    (hc : canonicalMap t (company_norm r) = some cc) :
    (company_clean r ≠ cc →
      (markRow t p r).reasons =
        head1 (company_clean r) (domainOf r) (dominantLookup t r) ++
          midReasons p (company_counts t) (company_clean r) ++ [reason4 cc] ∧
      (markRow t p r).suggested_company =
        firstSome (sug1 (company_clean r) (domainOf r) (dominantLookup t r))
          (some cc)) ∧
    (company_clean r = cc →
      (markRow t p r).reasons =
        head1 (company_clean r) (domainOf r) (dominantLookup t r) ++
          midReasons p (company_counts t) (company_clean r) ∧
      (markRow t p r).suggested_company =
        sug1 (company_clean r) (domainOf r) (dominantLookup t r)) := by
  constructor
  · intro hne
    constructor
    · rw [(markRow_classification t p r).1, hc]
      simp only [classifyRow_eq, tail4]
      rw [if_pos hne]
    · rw [(markRow_classification t p r).2.1, hc]
      simp only [classifyRow_eq, suggestTail]
      rw [if_pos hne]
  · intro heq
    constructor
    · rw [(markRow_classification t p r).1, hc]
      simp only [classifyRow_eq, tail4]
      rw [if_neg (by simp [heq]), List.append_nil]
    · rw [(markRow_classification t p r).2.1, hc]
      simp only [classifyRow_eq, suggestTail]
      rw [if_neg (by simp [heq]), firstSome_none]

/-- Witness for C4: the lone lowercase "globex corp" record. -/
theorem canonical_spelling_heuristic_witness :
    (canonicalMap tCanon "globex corp" = some "Globex Corp" ∧
      ("globex corp" : String) ≠ "Globex Corp") ∧
    ((markRow tCanon [] ⟨.str "e3", .str "globex corp"⟩).reasons =
      head1 (company_clean ⟨.str "e3", .str "globex corp"⟩)
          (domainOf ⟨.str "e3", .str "globex corp"⟩)
          (dominantLookup tCanon ⟨.str "e3", .str "globex corp"⟩) ++
        midReasons [] (company_counts tCanon)
          (company_clean ⟨.str "e3", .str "globex corp"⟩) ++
        [reason4 "Globex Corp"] ∧
    (markRow tCanon [] ⟨.str "e3", .str "globex corp"⟩).suggested_company =
      firstSome
        (sug1 (company_clean ⟨.str "e3", .str "globex corp"⟩)
          (domainOf ⟨.str "e3", .str "globex corp"⟩)
          (dominantLookup tCanon ⟨.str "e3", .str "globex corp"⟩))
        (some "Globex Corp")) := by
  have hc : canonicalMap tCanon
      (company_norm ⟨.str "e3", .str "globex corp"⟩) = some "Globex Corp" := by
    decide
  have hne : company_clean ⟨.str "e3", .str "globex corp"⟩ ≠ "Globex Corp" := by
    decide
  exact ⟨⟨hc, by decide⟩,
    (canonical_spelling_heuristic tCanon [] ⟨.str "e3", .str "globex corp"⟩
      "Globex Corp" hc).1 hne⟩

/-- C2 counterexample: with the single record " Acme " on domain d.com the
dominant company is the raw, untrimmed cell " Acme ", not a trimmed value,
and not what grouping by `company_clean` would report. -/
theorem dominant_company_not_trimmed_cex :
    dominantNat tRawName "d.com" = some (" Acme ", 1) ∧
    dominantNatClean tRawName "d.com" = some ("Acme", 1) ∧
    pyStrip " Acme " = "Acme" ∧ (" Acme " : String) ≠ "Acme" :=
  ⟨by decide, by decide, by decide, by decide⟩

/-- C2 amended: the dominant resolver groups by (domain, raw `Company Name`),
so the dominant company of a domain is the raw company cell of some record
with that domain (not necessarily a trimmed value), and its group count is
maximal among the domain's raw-name groups. -/
theorem dominant_company_from_raw_names (t : List RawRecord) (d dc : String)
    (ds : ℚ) (h : dominantMap t d = some (dc, ds)) :
    (∃ r ∈ t, domainOf r = some d ∧ r.companyName = .str dc) ∧
    ∃ n, dominantNat t d = some (dc, n) ∧
      ∀ x ∈ dominant_stats t, x.1 = d → x.2.2 ≤ n := by
  unfold dominantMap at h
  rcases Option.map_eq_some'.mp h with ⟨⟨c0, n0⟩, hnat, hp⟩
  simp only at hp
  injection hp with h1 _
  subst h1
  have hs := topFor_spec (groupRows_pairwise _) hnat
  constructor
  · have hkey : (d, c0) ∈ domainNamePairs t := (mem_groupRows hs.1).1
    rcases List.mem_filterMap.mp hkey with ⟨r, hr, hfm⟩
    refine ⟨r, hr, ?_⟩
    cases hdom : domainOf r with
    | none =>
        rw [hdom] at hfm
        cases hcn : r.companyName <;> rw [hcn] at hfm <;> simp at hfm
    | some d' =>
        cases hcn : r.companyName with
        | str s =>
            rw [hdom, hcn] at hfm
            simp only [Option.some.injEq, Prod.mk.injEq] at hfm
            obtain ⟨hfm1, hfm2⟩ := hfm
            exact ⟨by rw [hfm1], by rw [hfm2]⟩
        | nan =>
            rw [hdom, hcn] at hfm
            simp at hfm
  · exact ⟨n0, hnat, fun x hx hxd => hs.2.1 x hx hxd⟩

/-- Witness for C2 at the untrimmed table. -/
theorem dominant_company_from_raw_names_witness :
    dominantMap tRawName "d.com" = some (" Acme ", 1) ∧
    ((∃ r ∈ tRawName, domainOf r = some "d.com" ∧ r.companyName = .str " Acme ") ∧
      ∃ n, dominantNat tRawName "d.com" = some (" Acme ", n) ∧
        ∀ x ∈ dominant_stats tRawName, x.1 = "d.com" → x.2.2 ≤ n) := by
  have h : dominantMap tRawName "d.com" = some (" Acme ", 1) := by
    have h1 : dominantNat tRawName "d.com" = some (" Acme ", 1) := by decide
    have h2 : total_domain tRawName "d.com" = 1 := by decide
    unfold dominantMap
    rw [h1, h2]
    norm_num
  exact ⟨h, dominant_company_from_raw_names tRawName "d.com" " Acme " 1 h⟩

/-- C5 counterexample: with a count tie on domain d.com and encounter order
"B" before "A", the resolver picks "A", the lexicographically smaller name,
not the first group in source encounter order. -/
theorem tie_break_not_encounter_order_cex :
    dominantEncounter tTie "d.com" = some ("B", 1) ∧
    dominantNat tTie "d.com" = some ("A", 1) ∧ ("A" : String) ≠ "B" :=
  ⟨by decide, by decide, by decide⟩

/-- C5 amended: in both resolvers the selection is a stable sort descending
on count over the groupby output, whose groups are ordered ascending by
group key; so the selected group has maximal count and, on a count tie, the
selected name is the least in ascending string order among the tied groups —
not the group first in source encounter order. -/
theorem tie_break_stable_lexicographic (t : List RawRecord) :
    (∀ d dc n, dominantNat t d = some (dc, n) →
      (d, dc, n) ∈ dominant_stats t ∧
      ∀ x ∈ dominant_stats t, x.1 = d →
        x.2.2 ≤ n ∧ (x.2.2 = n → pyLe dc x.2.1 = true)) ∧
    (∀ nm cc, canonicalMap t nm = some cc →
      ∃ n, (nm, cc, n) ∈ canonical_stats t ∧
        ∀ x ∈ canonical_stats t, x.1 = nm →
          x.2.2 ≤ n ∧ (x.2.2 = n → pyLe cc x.2.1 = true)) := by
  constructor
  · intro d dc n h
    have hs := topFor_spec (groupRows_pairwise _) h
    exact ⟨hs.1, fun x hx hxd => ⟨hs.2.1 x hx hxd, hs.2.2 x hx hxd⟩⟩
  · intro nm cc h
    unfold canonicalMap at h
    rcases Option.map_eq_some'.mp h with ⟨⟨c0, n0⟩, hnat, hp⟩
    simp only at hp
    subst hp
    have hs := topFor_spec (groupRows_pairwise _) hnat
    exact ⟨n0, hs.1, fun x hx hxd => ⟨hs.2.1 x hx hxd, hs.2.2 x hx hxd⟩⟩

/-- Witness for C5 at the tie table. -/
theorem tie_break_stable_lexicographic_witness :
    dominantNat tTie "d.com" = some ("A", 1) ∧
    (("d.com", "A", 1) ∈ dominant_stats tTie ∧
      ∀ x ∈ dominant_stats tTie, x.1 = "d.com" →
        x.2.2 ≤ 1 ∧ (x.2.2 = 1 → pyLe "A" x.2.1 = true)) := by
  have h : dominantNat tTie "d.com" = some ("A", 1) := by decide
  exact ⟨h, (tie_break_stable_lexicographic tTie).1 "d.com" "A" 1 h⟩

/-- C10 counterexample: the NaN-company record on domain d.com gets
`company_clean = "nan"` yet is dropped by the dominant resolver: the domain
total is 1 although two records carry the domain, while grouping by the
trimmed name would count 2. -/
theorem nan_not_counted_in_dominant_cex :
    company_clean ⟨.str "a@d.com", .nan⟩ = "nan" ∧
    domainOf ⟨.str "a@d.com", .nan⟩ = some "d.com" ∧
    (tNaN.filter (fun r => decide (domainOf r = some "d.com"))).length = 2 ∧
    total_domain tNaN "d.com" = 1 ∧
    dominantNat tNaN "d.com" = some ("X", 1) ∧
    total_domain_clean tNaN "d.com" = 2 :=
  ⟨by decide, by decide, by decide, by decide, by decide, by decide⟩

/-- C10 amended: a record with a missing company name gets
`company_clean = company_norm = "nan"`, is counted by the global frequency
table and by the canonical resolver, and heuristics 2-4 treat it exactly
like a record whose literal name is "nan"; but the dominant resolver's
groupby on the raw `Company Name` column drops it, so it contributes to no
domain group and no domain total. -/
theorem nan_company_handling (t : List RawRecord) (p : List String)
    (r : RawRecord) (hr : r ∈ t) (hn : r.companyName = .nan) :
    company_clean r = "nan" ∧ company_norm r = "nan" ∧
    1 ≤ company_counts t "nan" ∧
    (company_norm r, company_clean r) ∈ normCleanPairs t ∧
    (canonicalMap t "nan").isSome = true ∧
    (∀ d, dominantNat t d =
        dominantNat (t.filter (fun x => decide (x.companyName ≠ .nan))) d ∧
      total_domain t d =
        total_domain (t.filter (fun x => decide (x.companyName ≠ .nan))) d) ∧
    ((markRow t p r).is_suspect =
        (markRow t p ⟨r.email, .str "nan"⟩).is_suspect ∧
      (markRow t p r).reasons = (markRow t p ⟨r.email, .str "nan"⟩).reasons ∧
      (markRow t p r).suggested_company =
        (markRow t p ⟨r.email, .str "nan"⟩).suggested_company) := by
  have hclean : company_clean r = "nan" := by
    unfold company_clean
    rw [hn]
    decide
  have hnorm : company_norm r = "nan" := by
    unfold company_norm
    rw [hclean]
    decide
  have hclean' : company_clean ⟨r.email, .str "nan"⟩ = "nan" := rfl
  have hnorm' : company_norm ⟨r.email, .str "nan"⟩ = "nan" := rfl
  refine ⟨hclean, hnorm, ?_, ?_, ?_, ?_, ?_⟩
  · have hmem : r ∈ t.filter (fun x => company_clean x = "nan") :=
      List.mem_filter.mpr ⟨hr, by simp [hclean]⟩
    exact List.length_pos.mpr (List.ne_nil_of_mem hmem)
  · exact List.mem_map.mpr ⟨r, hr, rfl⟩
  · have hkey : ∃ x ∈ canonical_stats t, x.1 = "nan" := by
      obtain ⟨x, hx, hx1⟩ :=
        groupRows_key_mem (List.mem_map.mpr ⟨r, hr, rfl⟩ :
          (company_norm r, company_clean r) ∈ normCleanPairs t)
      exact ⟨x, hx, by rw [hx1]; exact hnorm⟩
    unfold canonicalMap
    rw [Option.isSome_map']
    exact topFor_isSome hkey
  · intro d
    constructor
    · unfold dominantNat dominant_stats
      rw [domainNamePairs_filter_nan]
    · unfold total_domain dominant_stats
      rw [domainNamePairs_filter_nan]
  · have hargs : classifyRow p (company_counts t) (company_clean r) (domainOf r)
        (dominantLookup t r) (canonicalMap t (company_norm r)) =
      classifyRow p (company_counts t) (company_clean ⟨r.email, .str "nan"⟩)
        (domainOf ⟨r.email, .str "nan"⟩)
        (dominantLookup t ⟨r.email, .str "nan"⟩)
        (canonicalMap t (company_norm ⟨r.email, .str "nan"⟩)) := by
      rw [hclean, hnorm, hclean', hnorm']
      rfl
    refine ⟨?_, ?_, ?_⟩
    · rw [(markRow_classification t p r).2.2,
        (markRow_classification t p ⟨r.email, .str "nan"⟩).2.2, hargs]
    · rw [(markRow_classification t p r).1,
        (markRow_classification t p ⟨r.email, .str "nan"⟩).1, hargs]
    · rw [(markRow_classification t p r).2.1,
        (markRow_classification t p ⟨r.email, .str "nan"⟩).2.1, hargs]

/-- Witness for C10 at the NaN record of the mixed table. -/
theorem nan_company_handling_witness :
    ((⟨.str "a@d.com", .nan⟩ : RawRecord) ∈ tNaN ∧
      (⟨.str "a@d.com", .nan⟩ : RawRecord).companyName = .nan) ∧
    (company_clean ⟨.str "a@d.com", .nan⟩ = "nan" ∧
      company_norm ⟨.str "a@d.com", .nan⟩ = "nan" ∧
      1 ≤ company_counts tNaN "nan" ∧
      (company_norm ⟨.str "a@d.com", .nan⟩,
        company_clean ⟨.str "a@d.com", .nan⟩) ∈ normCleanPairs tNaN ∧
      (canonicalMap tNaN "nan").isSome = true ∧
      (∀ d, dominantNat tNaN d =
          dominantNat (tNaN.filter (fun x => decide (x.companyName ≠ .nan))) d ∧
        total_domain tNaN d =
          total_domain (tNaN.filter (fun x => decide (x.companyName ≠ .nan))) d) ∧
      ((markRow tNaN [] ⟨.str "a@d.com", .nan⟩).is_suspect =
          (markRow tNaN [] ⟨.str "a@d.com", .str "nan"⟩).is_suspect ∧
        (markRow tNaN [] ⟨.str "a@d.com", .nan⟩).reasons =
          (markRow tNaN [] ⟨.str "a@d.com", .str "nan"⟩).reasons ∧
        (markRow tNaN [] ⟨.str "a@d.com", .nan⟩).suggested_company =
          (markRow tNaN [] ⟨.str "a@d.com", .str "nan"⟩).suggested_company)) := by
  have hr : (⟨.str "a@d.com", .nan⟩ : RawRecord) ∈ tNaN := by decide
  exact ⟨⟨hr, rfl⟩, nan_company_handling tNaN [] ⟨.str "a@d.com", .nan⟩ hr rfl⟩

end Inovation
